import Mathlib

/-!
Shallow embedding of the nwfetch-go WEB/1 fetch client core
(address normalization, connection pool, client execution path,
response/status/error taxonomy), with theorems checking the
natural-language specification against the code.

Strings are embedded as `List Char`; bytes as `List Nat`.
-/

namespace Nwfetch

/-- The characters of the literal scheme marker string used by NormalizeURL. -/
def webScheme : List Char := ['w', 'e', 'b', ':', '/', '/']

/-- DefaultPort is the default port for the WEB/1 protocol (source: `DefaultPort = "6937"`). -/
def DefaultPort : List Char := ['6', '9', '3', '7']

/-- Models the Go pattern `idx := strings.Index(s, c)` followed by slicing `s[:idx]` / `s[idx:]`:
returns the part of the list strictly before the first occurrence of `c`, and the suffix
starting at that first occurrence. The suffix is empty exactly when `c` does not occur
(Go: `idx == -1`). Also models `strings.Contains` (second component nonempty) and
`strings.SplitN(s, c, 2)` (first component, and second component without its head). -/
def splitAtChar (c : Char) : List Char → List Char × List Char
  | [] => ([], [])
  | a :: rest =>
    if a = c then ([], a :: rest)
    else
      let p := splitAtChar c rest
      (a :: p.1, p.2)

/-- Models the scheme strip at the top of NormalizeURL:
`if strings.HasPrefix(rest, "web://") { rest = rest[len("web://"):] }`. -/
def stripScheme (raw : List Char) : List Char :=
  if webScheme.isPrefixOf raw then raw.drop 6 else raw

/-- The bracketed-host arm of NormalizeURL (source lines handling `rest[0] == '['`).
`addr` is the text between `[` and the first `]`; `sfx` is the suffix of the input
starting at the first `]`, so `sfx = []` means the bracket is unterminated
(Go: `end == -1`) and the raw input is returned unchanged. -/
def normBracket (raw addr sfx : List Char) : List Char :=
  match sfx with
  | [] => raw
  | _ :: afterBracket =>
    match afterBracket with
    | [] => webScheme ++ ('[' :: addr ++ ']' :: ':' :: DefaultPort) ++ ['/']
    | a0 :: _ =>
      if a0 = ':' then
        let sp := splitAtChar '/' afterBracket
        if sp.2 = [] then webScheme ++ ('[' :: addr ++ ']' :: afterBracket) ++ ['/']
        else webScheme ++ ('[' :: addr ++ ']' :: sp.1) ++ sp.2
      else if a0 = '/' then
        webScheme ++ ('[' :: addr ++ ']' :: ':' :: DefaultPort) ++ afterBracket
      else raw

/-- The unbracketed-host arm of NormalizeURL: split host part from path at the first `/`
(path defaults to `/`), then either re-bracket `addr:port` as `[addr]:port` when the host
part contains a colon, or supply the default port. -/
def normHost (rest : List Char) : List Char :=
  let sp := splitAtChar '/' rest
  let path := if sp.2 = [] then ['/'] else sp.2
  let cp := splitAtChar ':' sp.1
  if cp.2 = [] then webScheme ++ ('[' :: sp.1 ++ ']' :: ':' :: DefaultPort) ++ path
  else webScheme ++ ('[' :: cp.1 ++ ']' :: cp.2) ++ path

/-- Dispatch on the first character of the scheme-stripped input, as NormalizeURL does:
empty input is returned raw, a leading `[` selects the bracketed arm, anything else the
unbracketed arm. -/
def normRest (raw rest : List Char) : List Char :=
  match rest with
  | [] => raw
  | c0 :: tl =>
    if c0 = '[' then
      normBracket raw (splitAtChar ']' tl).1 (splitAtChar ']' tl).2
    else normHost (c0 :: tl)

/-- NormalizeURL takes a user-provided URL and ensures it has the `web://` scheme,
brackets around the address, and a port (embedding of the Go `NormalizeURL`). -/
def NormalizeURL (raw : List Char) : List Char :=
  normRest raw (stripScheme raw)

example : NormalizeURL "web://host/path".data = "web://[host]:6937/path".data := by decide
example : NormalizeURL "web://host:6937/path".data = "web://[host]:6937/path".data := by decide
example : NormalizeURL "web://[host]/path".data = "web://[host]:6937/path".data := by decide
example : NormalizeURL "web://host".data = "web://[host]:6937/".data := by decide
example : NormalizeURL "web://[abc".data = "web://[abc".data := by decide
example : NormalizeURL "host/path".data = "web://[host]:6937/path".data := by decide
example : NormalizeURL "web://".data = "web://".data := by decide

/-! ### Lemmas about the string-splitting helper and scheme stripping -/

theorem splitAtChar_not_mem {c : Char} : ∀ {l : List Char}, c ∉ l → splitAtChar c l = (l, [])
  | [], _ => rfl
  | a :: t, h => by
    have ha : ¬ a = c := fun e => h (e ▸ List.mem_cons_self a t)
    have ht : c ∉ t := fun hm => h (List.mem_cons_of_mem a hm)
    simp [splitAtChar, ha, splitAtChar_not_mem ht]

theorem splitAtChar_append {c : Char} :
    ∀ {l₁ : List Char}, c ∉ l₁ → ∀ l₂ : List Char, splitAtChar c (l₁ ++ c :: l₂) = (l₁, c :: l₂)
  | [], _, l₂ => by simp [splitAtChar]
  | a :: t, h, l₂ => by
    have ha : ¬ a = c := fun e => h (e ▸ List.mem_cons_self a t)
    have ht : c ∉ t := fun hm => h (List.mem_cons_of_mem a hm)
    simp [splitAtChar, ha, splitAtChar_append ht l₂]

theorem isPrefixOf_append_self (l₁ l₂ : List Char) : l₁.isPrefixOf (l₁ ++ l₂) = true := by
  induction l₁ with
  | nil => simp [List.isPrefixOf]
  | cons a t ih => simp [List.isPrefixOf, ih]

theorem stripScheme_append (l : List Char) : stripScheme (webScheme ++ l) = l := by
  simp only [stripScheme, isPrefixOf_append_self, if_pos]
  rfl

theorem stripScheme_of_not (raw : List Char) (h : webScheme.isPrefixOf raw = false) :
    stripScheme raw = raw := by
  simp [stripScheme, h]

/-! ### Evaluation of the normalizer on each input shape -/

theorem normRest_bracket_malformed (raw a : List Char) (h : ']' ∉ a) :
    normRest raw ('[' :: a) = raw := by
  simp [normRest, splitAtChar_not_mem h, normBracket]

theorem normRest_bracket_noport (raw h p : List Char) (hh : ']' ∉ h)
    (hp : p = [] ∨ p.head? = some '/') :
    normRest raw ('[' :: (h ++ ']' :: p))
      = webScheme ++ ('[' :: h ++ ']' :: ':' :: DefaultPort) ++ (if p = [] then ['/'] else p) := by
  rcases hp with hp | hp
  · subst hp
    simp [normRest, splitAtChar_append hh, normBracket]
  · cases p with
    | nil => simp at hp
    | cons a q =>
      have ha : a = '/' := by simpa using hp
      subst ha
      simp [normRest, splitAtChar_append hh, normBracket]

theorem normRest_bracket_port (raw h pt p : List Char) (hh : ']' ∉ h) (hpt : '/' ∉ pt)
    (hp : p = [] ∨ p.head? = some '/') :
    normRest raw ('[' :: (h ++ ']' :: ':' :: (pt ++ p)))
      = webScheme ++ ('[' :: h ++ ']' :: ':' :: pt) ++ (if p = [] then ['/'] else p) := by
  have hcolon : '/' ∉ (':' :: pt) := by
    intro hm
    rcases List.mem_cons.mp hm with hm | hm
    · exact absurd hm.symm (by decide)
    · exact hpt hm
  rcases hp with hp | hp
  · subst hp
    simp only [List.append_nil]
    simp [normRest, splitAtChar_append hh, normBracket, splitAtChar_not_mem hcolon]
  · cases p with
    | nil => simp at hp
    | cons a q =>
      have ha : a = '/' := by simpa using hp
      subst ha
      have hsp : splitAtChar '/' (':' :: (pt ++ '/' :: q)) = (':' :: pt, '/' :: q) := by
        have := splitAtChar_append hcolon q
        simpa using this
      simp [normRest, splitAtChar_append hh, normBracket, hsp]

theorem normRest_host_noport (raw h p : List Char) (hsl : '/' ∉ h) (hcl : ':' ∉ h)
    (hbr : (h ++ p).head? ≠ some '[') (hne : h ++ p ≠ [])
    (hp : p = [] ∨ p.head? = some '/') :
    normRest raw (h ++ p)
      = webScheme ++ ('[' :: h ++ ']' :: ':' :: DefaultPort) ++ (if p = [] then ['/'] else p) := by
  have hsp : splitAtChar '/' (h ++ p) = (h, p) ∧ (if p = [] then (['/'] : List Char) else p)
      = (if p = [] then ['/'] else p) := by
    rcases hp with hp | hp
    · subst hp
      exact ⟨by simpa using splitAtChar_not_mem hsl, rfl⟩
    · cases p with
      | nil => simp at hp
      | cons a q =>
        have ha : a = '/' := by simpa using hp
        subst ha
        exact ⟨splitAtChar_append hsl q, rfl⟩
  cases h with
  | nil =>
    rcases hp with hp | hp
    · subst hp; simp at hne
    · cases p with
      | nil => simp at hp
      | cons a q =>
        have ha : a = '/' := by simpa using hp
        subst ha
        simp [normRest, normHost, splitAtChar, splitAtChar_not_mem hsl]
  | cons c t =>
    have hc : ¬ c = '[' := by
      intro e
      exact hbr (by simp [e])
    have hcp : splitAtChar ':' (c :: t) = (c :: t, []) := splitAtChar_not_mem hcl
    rcases hp with hp | hp
    · subst hp
      have hsp1 : splitAtChar '/' (c :: t) = (c :: t, []) := by
        simpa using hsp.1
      simp [normRest, normHost, hc, hsp1, hcp]
    · cases p with
      | nil => simp at hp
      | cons a q =>
        have ha : a = '/' := by simpa using hp
        subst ha
        have hsp1 : splitAtChar '/' (c :: (t ++ '/' :: q)) = (c :: t, '/' :: q) := by
          simpa using hsp.1
        simp [normRest, normHost, hc, hsp1, hcp]

theorem normRest_host_port (raw h pt p : List Char) (hsl : '/' ∉ h) (hcl : ':' ∉ h)
    (hpt : '/' ∉ pt) (hbr : h.head? ≠ some '[')
    (hp : p = [] ∨ p.head? = some '/') :
    normRest raw (h ++ ':' :: (pt ++ p))
      = webScheme ++ ('[' :: h ++ ']' :: ':' :: pt) ++ (if p = [] then ['/'] else p) := by
  have hhp : '/' ∉ h ++ ':' :: pt := by
    intro hm
    rcases List.mem_append.mp hm with hm | hm
    · exact hsl hm
    · rcases List.mem_cons.mp hm with hm | hm
      · exact absurd hm.symm (by decide)
      · exact hpt hm
  have hsp : splitAtChar '/' (h ++ ':' :: (pt ++ p)) = (h ++ ':' :: pt, p) := by
    rcases hp with hp | hp
    · subst hp
      simpa using splitAtChar_not_mem hhp
    · cases p with
      | nil => simp at hp
      | cons a q =>
        have ha : a = '/' := by simpa using hp
        subst ha
        have := splitAtChar_append hhp q
        simpa [List.append_assoc] using this
  have hcp : splitAtChar ':' (h ++ ':' :: pt) = (h, ':' :: pt) := splitAtChar_append hcl pt
  cases h with
  | nil =>
    have hcp2 : splitAtChar ':' (':' :: pt) = ([], ':' :: pt) := by simpa using hcp
    rcases hp with hp | hp
    · subst hp
      have hsp2 : splitAtChar '/' (':' :: pt) = (':' :: pt, []) := by simpa using hsp
      simp [normRest, normHost, hsp2, hcp2]
    · cases p with
      | nil => simp at hp
      | cons a q =>
        have ha : a = '/' := by simpa using hp
        subst ha
        have hsp2 : splitAtChar '/' (':' :: (pt ++ '/' :: q)) = (':' :: pt, '/' :: q) := by
          simpa using hsp
        simp [normRest, normHost, hsp2, hcp2]
  | cons c t =>
    have hc : ¬ c = '[' := by
      intro e
      exact hbr (by simp [e])
    have hcp2 : splitAtChar ':' (c :: (t ++ ':' :: pt)) = (c :: t, ':' :: pt) := by
      simpa using hcp
    rcases hp with hp | hp
    · subst hp
      have hsp2 : splitAtChar '/' (c :: (t ++ ':' :: pt)) = (c :: (t ++ ':' :: pt), []) := by
        simpa using hsp
      simp [normRest, normHost, hc, hsp2, hcp2]
    · cases p with
      | nil => simp at hp
      | cons a q =>
        have ha : a = '/' := by simpa using hp
        subst ha
        have hsp2 : splitAtChar '/' (c :: (t ++ ':' :: (pt ++ '/' :: q)))
            = (c :: (t ++ ':' :: pt), '/' :: q) := by
          simpa using hsp
        simp [normRest, normHost, hc, hsp2, hcp2]

/-- Reassociation between the grouped canonical output of the computation lemmas and the
right-nested form consumed on renormalization. -/
theorem canonical_assoc (h pt pth : List Char) :
    webScheme ++ ('[' :: h ++ ']' :: ':' :: pt) ++ pth
      = webScheme ++ '[' :: (h ++ ']' :: ':' :: (pt ++ pth)) := by
  simp [List.append_assoc]

/-- A canonical address (bracketed host, explicit port, slash-led path) is a fixed point
of NormalizeURL. -/
theorem normalize_fixpoint (h pt pth : List Char) (hh : ']' ∉ h) (hpt : '/' ∉ pt)
    (hp : pth.head? = some '/') :
    NormalizeURL (webScheme ++ '[' :: (h ++ ']' :: ':' :: (pt ++ pth)))
      = webScheme ++ '[' :: (h ++ ']' :: ':' :: (pt ++ pth)) := by
  have hpne : pth ≠ [] := by
    cases pth with
    | nil => simp at hp
    | cons a q => simp
  unfold NormalizeURL
  rw [stripScheme_append]
  rw [normRest_bracket_port _ h pt pth hh hpt (Or.inr hp)]
  rw [if_neg hpne]
  exact canonical_assoc h pt pth

/-- A well-formed input address: one of the supported forms of the normalizer's
contract, with a port free of slashes and a path that is either absent or led by a
slash. An unbracketed host must be free of the separator characters (they would change
how the input splits); a bracketed host may contain separator characters — that is
what the brackets are for — and is constrained only to not contain the closing
bracket. -/
def WellFormedURL (s : List Char) : Prop :=
  ∃ h pt p : List Char,
    '/' ∉ pt ∧ (p = [] ∨ p.head? = some '/') ∧ h ≠ [] ∧
    ((s = webScheme ++ (h ++ p) ∧ '/' ∉ h ∧ ':' ∉ h ∧ ']' ∉ h ∧ '[' ∉ h) ∨
     (s = webScheme ++ (h ++ ':' :: (pt ++ p)) ∧ '/' ∉ h ∧ ':' ∉ h ∧ ']' ∉ h ∧ '[' ∉ h) ∨
     (s = webScheme ++ '[' :: (h ++ ']' :: p) ∧ ']' ∉ h) ∨
     (s = webScheme ++ '[' :: (h ++ ']' :: ':' :: (pt ++ p)) ∧ ']' ∉ h))

theorem head_ne_bracket {h : List Char} (hlb : '[' ∉ h) (hne : h ≠ []) (q : List Char) :
    (h ++ q).head? ≠ some '[' := by
  cases h with
  | nil => exact absurd rfl hne
  | cons c t =>
    intro e
    have hc : c = '[' := by simpa using e
    exact hlb (hc ▸ List.mem_cons_self c t)

theorem append_ne_nil_left {h : List Char} (hne : h ≠ []) (q : List Char) : h ++ q ≠ [] := by
  cases h with
  | nil => exact absurd rfl hne
  | cons c t => simp

theorem path_default_head {p : List Char} (hp : p = [] ∨ p.head? = some '/') :
    (if p = [] then ['/'] else p).head? = some '/' := by
  rcases hp with hp | hp
  · subst hp; rfl
  · cases p with
    | nil => simp at hp
    | cons a q =>
      have ha : a = '/' := by simpa using hp
      simp [ha]

/-- C4: address normalization is idempotent on every well-formed input address:
normalizing twice yields the same result as normalizing once. (NormalizeURL is a plain
function of its input, so purity holds by construction.) -/
theorem c4_normalize_idempotent (s : List Char) (hwf : WellFormedURL s) :
    NormalizeURL (NormalizeURL s) = NormalizeURL s := by
  obtain ⟨h, pt, p, hpt, hp, hne, hf⟩ := hwf
  have dp : '/' ∉ DefaultPort := by decide
  rcases hf with ⟨hf, hsl, hcl, hrb, hlb⟩ | ⟨hf, hsl, hcl, hrb, hlb⟩ | ⟨hf, hrb⟩ |
    ⟨hf, hrb⟩ <;> subst hf
  · have e1 : NormalizeURL (webScheme ++ (h ++ p))
        = webScheme ++ ('[' :: h ++ ']' :: ':' :: DefaultPort) ++ (if p = [] then ['/'] else p) := by
      unfold NormalizeURL
      rw [stripScheme_append]
      exact normRest_host_noport _ h p hsl hcl (head_ne_bracket hlb hne p)
        (append_ne_nil_left hne p) hp
    rw [e1, canonical_assoc]
    exact normalize_fixpoint h DefaultPort _ hrb dp (path_default_head hp)
  · have hbr0 : h.head? ≠ some '[' := by
      have := head_ne_bracket hlb hne []
      simpa using this
    have e1 : NormalizeURL (webScheme ++ (h ++ ':' :: (pt ++ p)))
        = webScheme ++ ('[' :: h ++ ']' :: ':' :: pt) ++ (if p = [] then ['/'] else p) := by
      unfold NormalizeURL
      rw [stripScheme_append]
      exact normRest_host_port _ h pt p hsl hcl hpt hbr0 hp
    rw [e1, canonical_assoc]
    exact normalize_fixpoint h pt _ hrb hpt (path_default_head hp)
  · have e1 : NormalizeURL (webScheme ++ '[' :: (h ++ ']' :: p))
        = webScheme ++ ('[' :: h ++ ']' :: ':' :: DefaultPort) ++ (if p = [] then ['/'] else p) := by
      unfold NormalizeURL
      rw [stripScheme_append]
      exact normRest_bracket_noport _ h p hrb hp
    rw [e1, canonical_assoc]
    exact normalize_fixpoint h DefaultPort _ hrb dp (path_default_head hp)
  · have e1 : NormalizeURL (webScheme ++ '[' :: (h ++ ']' :: ':' :: (pt ++ p)))
        = webScheme ++ ('[' :: h ++ ']' :: ':' :: pt) ++ (if p = [] then ['/'] else p) := by
      unfold NormalizeURL
      rw [stripScheme_append]
      exact normRest_bracket_port _ h pt p hrb hpt hp
    rw [e1, canonical_assoc]
    exact normalize_fixpoint h pt _ hrb hpt (path_default_head hp)

/-- Closed instance of C4 at a concrete well-formed address (an unbracketed host) and
at one whose bracketed host contains a separator character. -/
theorem c4_normalize_idempotent_witness :
    NormalizeURL (NormalizeURL "web://host/path".data) = NormalizeURL "web://host/path".data
    ∧ NormalizeURL (NormalizeURL "web://[db:primary]/q".data)
        = NormalizeURL "web://[db:primary]/q".data :=
  ⟨c4_normalize_idempotent "web://host/path".data
      ⟨"host".data, [], "/path".data, by decide, Or.inr (by decide), by decide,
        Or.inl ⟨by decide, by decide, by decide, by decide, by decide⟩⟩,
    c4_normalize_idempotent "web://[db:primary]/q".data
      ⟨"db:primary".data, [], "/q".data, by decide, Or.inr (by decide), by decide,
        Or.inr (Or.inr (Or.inl ⟨by decide, by decide⟩))⟩⟩

/-- C5: for every host and path, the forms `web://host/path`, `web://host:6937/path`
(default port written out) and `web://[host]/path` all normalize to the identical
canonical string `web://[host]:6937/path`; the default port 6937 is supplied when the
port is omitted, and the path defaults to `/` when omitted (the `if p = []` branch). -/
theorem c5_normalize_equiv (h p : List Char)
    (hsl : '/' ∉ h) (hcl : ':' ∉ h) (hrb : ']' ∉ h) (hlb : '[' ∉ h) (hne : h ≠ [])
    (hp : p = [] ∨ p.head? = some '/') :
    NormalizeURL (webScheme ++ (h ++ p))
        = webScheme ++ ('[' :: h ++ ']' :: ':' :: DefaultPort) ++ (if p = [] then ['/'] else p)
    ∧ NormalizeURL (webScheme ++ (h ++ ':' :: (DefaultPort ++ p)))
        = webScheme ++ ('[' :: h ++ ']' :: ':' :: DefaultPort) ++ (if p = [] then ['/'] else p)
    ∧ NormalizeURL (webScheme ++ '[' :: (h ++ ']' :: p))
        = webScheme ++ ('[' :: h ++ ']' :: ':' :: DefaultPort) ++ (if p = [] then ['/'] else p) := by
  have dp : '/' ∉ DefaultPort := by decide
  have hbr0 : h.head? ≠ some '[' := by
    have := head_ne_bracket hlb hne []
    simpa using this
  refine ⟨?_, ?_, ?_⟩
  · unfold NormalizeURL
    rw [stripScheme_append]
    exact normRest_host_noport _ h p hsl hcl (head_ne_bracket hlb hne p)
      (append_ne_nil_left hne p) hp
  · unfold NormalizeURL
    rw [stripScheme_append]
    exact normRest_host_port _ h DefaultPort p hsl hcl dp hbr0 hp
  · unfold NormalizeURL
    rw [stripScheme_append]
    exact normRest_bracket_noport _ h p hrb hp

/-- Closed instance of C5: the three forms for host `host`, path `/path`, and the
omitted-path default, evaluated concretely. -/
theorem c5_normalize_equiv_witness :
    NormalizeURL "web://host/path".data = "web://[host]:6937/path".data
    ∧ NormalizeURL "web://host:6937/path".data = "web://[host]:6937/path".data
    ∧ NormalizeURL "web://[host]/path".data = "web://[host]:6937/path".data
    ∧ NormalizeURL "web://host".data = "web://[host]:6937/".data := by
  have h1 := c5_normalize_equiv "host".data "/path".data (by decide) (by decide) (by decide)
    (by decide) (by decide) (Or.inr (by decide))
  have h2 := c5_normalize_equiv "host".data [] (by decide) (by decide) (by decide)
    (by decide) (by decide) (Or.inl rfl)
  refine ⟨h1.1.trans (by decide), h1.2.1.trans (by decide), h1.2.2.trans (by decide),
    h2.1.trans (by decide)⟩

/-- C10 counterexample: the input `web://[abc` (unterminated bracket) is returned
unchanged by NormalizeURL although it is neither the empty string nor the bare
`web://`, so "only the empty string and the bare web:// are returned unchanged" fails. -/
theorem c10_counterexample :
    NormalizeURL "web://[abc".data = "web://[abc".data
    ∧ "web://[abc".data ≠ ([] : List Char)
    ∧ "web://[abc".data ≠ "web://".data := by
  exact ⟨by decide, by decide, by decide⟩

/-- C10 (amended): NormalizeURL does not require the `web://` scheme on its input: a
non-empty input that does not carry the scheme and does not start with `[` is read as
`host[:port][/path]` and the canonical result carries the added `web://` scheme (first
two conjuncts, without and with a port); the empty string and the bare `web://` are
returned unchanged (third and fourth conjuncts); and — the amendment — inputs whose
host part has an unterminated `[` are also returned unchanged (last conjunct). -/
theorem c10_amended :
    (∀ h p : List Char, '/' ∉ h → ':' ∉ h → (h ++ p).head? ≠ some '[' → h ++ p ≠ [] →
      (p = [] ∨ p.head? = some '/') → webScheme.isPrefixOf (h ++ p) = false →
      NormalizeURL (h ++ p)
        = webScheme ++ ('[' :: h ++ ']' :: ':' :: DefaultPort) ++ (if p = [] then ['/'] else p))
    ∧ (∀ h pt p : List Char, '/' ∉ h → ':' ∉ h → '/' ∉ pt → h.head? ≠ some '[' →
      (p = [] ∨ p.head? = some '/') → webScheme.isPrefixOf (h ++ ':' :: (pt ++ p)) = false →
      NormalizeURL (h ++ ':' :: (pt ++ p))
        = webScheme ++ ('[' :: h ++ ']' :: ':' :: pt) ++ (if p = [] then ['/'] else p))
    ∧ NormalizeURL [] = []
    ∧ NormalizeURL webScheme = webScheme
    ∧ (∀ a : List Char, ']' ∉ a → NormalizeURL (webScheme ++ '[' :: a) = webScheme ++ '[' :: a) := by
  refine ⟨?_, ?_, by decide, by decide, ?_⟩
  · intro h p hsl hcl hbr hne hp hns
    unfold NormalizeURL
    rw [stripScheme_of_not _ hns]
    exact normRest_host_noport _ h p hsl hcl hbr hne hp
  · intro h pt p hsl hcl hpt hbr hp hns
    unfold NormalizeURL
    rw [stripScheme_of_not _ hns]
    exact normRest_host_port _ h pt p hsl hcl hpt hbr hp
  · intro a ha
    unfold NormalizeURL
    rw [stripScheme_append]
    exact normRest_bracket_malformed _ a ha

/-- Closed instance of the amended C10: `host/path` gains the scheme, default port and
brackets. -/
theorem c10_amended_witness :
    NormalizeURL "host/path".data = "web://[host]:6937/path".data := by
  have h1 := c10_amended.1 "host".data "/path".data (by decide) (by decide) (by decide)
    (by decide) (Or.inr (by decide)) (by decide)
  exact h1.trans (by decide)

/-! ### Response / status / error taxonomy (response.go, errors.go) -/

/-- A WEB/1 header name/value pair (the nwep.Header shape used by this package). -/
structure Header where
  Name : String
  Value : String
deriving DecidableEq

/-- Modelled from the spec: `nwep.StatusIsSuccess` lives in the external nwep engine,
not in this repository; the spec fixes the success set as \x7bok, created, accepted,
no_content\x7d. -/
def StatusIsSuccess (s : String) : Bool :=
  s = "ok" || s = "created" || s = "accepted" || s = "no_content"

/-- Modelled from the spec: `nwep.StatusIsError` lives in the external nwep engine,
not in this repository; the spec fixes the error set as \x7bbad_request, unauthorized,
forbidden, not_found, conflict, rate_limited, internal_error, unavailable\x7d. -/
def StatusIsError (s : String) : Bool :=
  s = "bad_request" || s = "unauthorized" || s = "forbidden" || s = "not_found" ||
  s = "conflict" || s = "rate_limited" || s = "internal_error" || s = "unavailable"

/-- Response wraps a WEB/1 protocol response: status string, optional human detail,
headers, body bytes. -/
structure Response where
  Status : String
  StatusDetails : String
  Headers : List Header
  Body : List Nat
deriving DecidableEq

/-- IsOK reports whether the status is exactly "ok". -/
def Response.IsOK (r : Response) : Bool := r.Status = "ok"

/-- IsSuccess reports whether the status is any success status. -/
def Response.IsSuccess (r : Response) : Bool := StatusIsSuccess r.Status

/-- IsError reports whether the status is an error status. -/
def Response.IsError (r : Response) : Bool := StatusIsError r.Status

/-- The loop inside Response.Header: first header whose name matches exactly
(case-sensitive), else `("", false)`. -/
def headerLookup : List Header → String → String × Bool
  | [], _ => ("", false)
  | h :: t, name => if h.Name = name then (h.Value, true) else headerLookup t name

/-- Header returns the value of the first header matching name and a found flag. -/
def Response.Header (r : Response) (name : String) : String × Bool :=
  headerLookup r.Headers name

/-- StatusError: a protocol-level error response (server reached, non-success status). -/
structure StatusError where
  Status : String
  StatusDetails : String
  Body : List Nat
deriving DecidableEq

/-- StatusError returns nil for a success status, else a populated StatusError carrying
the response's status, details and body. -/
def Response.StatusError (r : Response) : Option Nwfetch.StatusError :=
  if r.IsSuccess then none
  else some { Status := r.Status, StatusDetails := r.StatusDetails, Body := r.Body }

/-- A Go error value as seen by errors.As in this package: a StatusError leaf, a
transport Error (Op, URL) whose Unwrap returns the wrapped cause, or some other leaf
error with no Unwrap. -/
inductive GoError where
  | statusErr : Nwfetch.StatusError → GoError
  | transportErr : String → String → GoError → GoError
  | leaf : String → GoError
deriving DecidableEq

/-- Models `errors.As(err, &se)` for target `*StatusError`: walk the Unwrap chain and
return the first StatusError found, if any. -/
def errorsAsStatus : GoError → Option Nwfetch.StatusError
  | .statusErr se => some se
  | .transportErr _ _ e => errorsAsStatus e
  | .leaf _ => none

/-- hasStatus: `errors.As(err, &se) && se.Status == status`. -/
def hasStatus (err : GoError) (status : String) : Bool :=
  match errorsAsStatus err with
  | some se => se.Status = status
  | none => false

/-- IsBadRequest reports whether err is or wraps a StatusError with status bad_request. -/
def IsBadRequest (err : GoError) : Bool := hasStatus err "bad_request"

/-- IsUnauthorized reports whether err is or wraps a StatusError with status unauthorized. -/
def IsUnauthorized (err : GoError) : Bool := hasStatus err "unauthorized"

/-- IsForbidden reports whether err is or wraps a StatusError with status forbidden. -/
def IsForbidden (err : GoError) : Bool := hasStatus err "forbidden"

/-- IsNotFound reports whether err is or wraps a StatusError with status not_found. -/
def IsNotFound (err : GoError) : Bool := hasStatus err "not_found"

/-- IsConflict reports whether err is or wraps a StatusError with status conflict. -/
def IsConflict (err : GoError) : Bool := hasStatus err "conflict"

/-- IsRateLimited reports whether err is or wraps a StatusError with status rate_limited. -/
def IsRateLimited (err : GoError) : Bool := hasStatus err "rate_limited"

/-- IsInternalError reports whether err is or wraps a StatusError with status internal_error. -/
def IsInternalError (err : GoError) : Bool := hasStatus err "internal_error"

/-- IsUnavailable reports whether err is or wraps a StatusError with status unavailable. -/
def IsUnavailable (err : GoError) : Bool := hasStatus err "unavailable"

/-- The specification-side relation "err is, or wraps (through the Unwrap chain), the
given StatusError". -/
inductive WrapsStatus : GoError → Nwfetch.StatusError → Prop where
  | here (se : Nwfetch.StatusError) : WrapsStatus (.statusErr se) se
  | there (op url : String) (e : GoError) (se : Nwfetch.StatusError) :
      WrapsStatus e se → WrapsStatus (.transportErr op url e) se

theorem errorsAsStatus_iff_wraps (e : GoError) (se : Nwfetch.StatusError) :
    errorsAsStatus e = some se ↔ WrapsStatus e se := by
  induction e with
  | statusErr s =>
    simp only [errorsAsStatus, Option.some_inj]
    constructor
    · rintro rfl; exact WrapsStatus.here s
    · rintro ⟨⟩; rfl
  | transportErr op url e ih =>
    simp only [errorsAsStatus]
    rw [ih]
    constructor
    · exact fun hw => WrapsStatus.there op url e se hw
    · rintro ⟨⟩; assumption
  | leaf m =>
    simp only [errorsAsStatus]
    constructor
    · rintro ⟨⟩
    · rintro ⟨⟩

theorem hasStatus_iff_wraps (e : GoError) (st : String) :
    hasStatus e st = true ↔ ∃ se, WrapsStatus e se ∧ se.Status = st := by
  unfold hasStatus
  cases he : errorsAsStatus e with
  | none =>
    simp only [Bool.false_eq_true, false_iff]
    rintro ⟨se, hw, _⟩
    rw [← errorsAsStatus_iff_wraps] at hw
    rw [he] at hw
    exact Option.noConfusion hw
  | some se =>
    simp only [decide_eq_true_eq]
    constructor
    · intro h
      exact ⟨se, (errorsAsStatus_iff_wraps e se).mp he, h⟩
    · rintro ⟨se2, hw, hst⟩
      rw [← errorsAsStatus_iff_wraps] at hw
      rw [he] at hw
      cases hw
      exact hst

theorem statusIsSuccess_iff (s : String) :
    StatusIsSuccess s = true ↔ s ∈ ["ok", "created", "accepted", "no_content"] := by
  simp [StatusIsSuccess, or_assoc]

theorem statusIsError_iff (s : String) :
    StatusIsError s = true ↔ s ∈ ["bad_request", "unauthorized", "forbidden", "not_found",
      "conflict", "rate_limited", "internal_error", "unavailable"] := by
  simp [StatusIsError, or_assoc]

/-- C6: for every response whose status lies in the success set, IsSuccess holds and
StatusError returns nothing; for every response whose status lies in the error set,
IsError holds and StatusError returns a StatusError whose Status, StatusDetails and Body
equal the response's fields; and each sentinel predicate holds of an error value exactly
when that value is or wraps a StatusError with the corresponding status. -/
theorem c6_status_classification :
    (∀ r : Response, r.Status ∈ ["ok", "created", "accepted", "no_content"] →
      r.IsSuccess = true ∧ r.StatusError = none)
    ∧ (∀ r : Response, r.Status ∈ ["bad_request", "unauthorized", "forbidden", "not_found",
        "conflict", "rate_limited", "internal_error", "unavailable"] →
      r.IsError = true ∧ r.StatusError = some ⟨r.Status, r.StatusDetails, r.Body⟩)
    ∧ (∀ e, IsBadRequest e = true ↔ ∃ se, WrapsStatus e se ∧ se.Status = "bad_request")
    ∧ (∀ e, IsUnauthorized e = true ↔ ∃ se, WrapsStatus e se ∧ se.Status = "unauthorized")
    ∧ (∀ e, IsForbidden e = true ↔ ∃ se, WrapsStatus e se ∧ se.Status = "forbidden")
    ∧ (∀ e, IsNotFound e = true ↔ ∃ se, WrapsStatus e se ∧ se.Status = "not_found")
    ∧ (∀ e, IsConflict e = true ↔ ∃ se, WrapsStatus e se ∧ se.Status = "conflict")
    ∧ (∀ e, IsRateLimited e = true ↔ ∃ se, WrapsStatus e se ∧ se.Status = "rate_limited")
    ∧ (∀ e, IsInternalError e = true ↔ ∃ se, WrapsStatus e se ∧ se.Status = "internal_error")
    ∧ (∀ e, IsUnavailable e = true ↔ ∃ se, WrapsStatus e se ∧ se.Status = "unavailable") := by
  refine ⟨?_, ?_, fun e => hasStatus_iff_wraps e _, fun e => hasStatus_iff_wraps e _,
    fun e => hasStatus_iff_wraps e _, fun e => hasStatus_iff_wraps e _,
    fun e => hasStatus_iff_wraps e _, fun e => hasStatus_iff_wraps e _,
    fun e => hasStatus_iff_wraps e _, fun e => hasStatus_iff_wraps e _⟩
  · intro r hr
    have hs : r.IsSuccess = true := (statusIsSuccess_iff r.Status).mpr hr
    exact ⟨hs, by simp [Response.StatusError, hs]⟩
  · intro r hr
    have he : r.IsError = true := (statusIsError_iff r.Status).mpr hr
    have hs : r.IsSuccess = false := by
      rw [Response.IsSuccess]
      simp only [List.mem_cons, List.not_mem_nil, or_false] at hr
      rcases hr with h | h | h | h | h | h | h | h <;> rw [h] <;> decide
    exact ⟨he, by simp [Response.StatusError, hs]⟩

/-- Closed instance of C6: a success response, an error response, and a sentinel match
through a transport wrapper, evaluated concretely. -/
theorem c6_status_classification_witness :
    Response.IsSuccess ⟨"ok", "", [], []⟩ = true
    ∧ Response.StatusError ⟨"ok", "", [], []⟩ = none
    ∧ Response.IsError ⟨"not_found", "no such path", [], [1]⟩ = true
    ∧ Response.StatusError ⟨"not_found", "no such path", [], [1]⟩
        = some ⟨"not_found", "no such path", [1]⟩
    ∧ IsNotFound (.transportErr "fetch" "web://[h]:6937/x"
        (.statusErr ⟨"not_found", "gone", []⟩)) = true := by
  refine ⟨(c6_status_classification.1 ⟨"ok", "", [], []⟩ (by decide)).1,
    (c6_status_classification.1 ⟨"ok", "", [], []⟩ (by decide)).2,
    (c6_status_classification.2.1 ⟨"not_found", "no such path", [], [1]⟩ (by decide)).1,
    (c6_status_classification.2.1 ⟨"not_found", "no such path", [], [1]⟩ (by decide)).2,
    (c6_status_classification.2.2.2.2.2.1 _).mpr
      ⟨⟨"not_found", "gone", []⟩,
        WrapsStatus.there _ _ _ _ (WrapsStatus.here _), rfl⟩⟩

/-- C9: StatusError returns nothing exactly when the status is a success status, so for
a status outside both enumerations StatusError returns a populated StatusError while
IsError is false. -/
theorem c9_unknown_status (r : Response)
    (hs : r.Status ∉ ["ok", "created", "accepted", "no_content"])
    (he : r.Status ∉ ["bad_request", "unauthorized", "forbidden", "not_found",
      "conflict", "rate_limited", "internal_error", "unavailable"]) :
    r.StatusError = some ⟨r.Status, r.StatusDetails, r.Body⟩
    ∧ r.IsError = false
    ∧ (r.StatusError = none ↔ r.IsSuccess = true) := by
  have hs1 : r.IsSuccess = false := by
    rw [Response.IsSuccess]
    rcases hb : StatusIsSuccess r.Status with _ | _
    · rfl
    · exact absurd ((statusIsSuccess_iff r.Status).mp hb) hs
  have he1 : r.IsError = false := by
    rw [Response.IsError]
    rcases hb : StatusIsError r.Status with _ | _
    · rfl
    · exact absurd ((statusIsError_iff r.Status).mp hb) he
  refine ⟨by simp [Response.StatusError, hs1], he1, ?_⟩
  simp [Response.StatusError, hs1]

/-- Closed instance of C9 at status `weird`, outside both enumerations. -/
theorem c9_unknown_status_witness :
    Response.StatusError ⟨"weird", "d", [], [7]⟩ = some ⟨"weird", "d", [7]⟩
    ∧ Response.IsError ⟨"weird", "d", [], [7]⟩ = false := by
  have h := c9_unknown_status ⟨"weird", "d", [], [7]⟩ (by decide) (by decide)
  exact ⟨h.1, h.2.1⟩

/-! ### RetryAfter (response.go) -/

/-- Digit run of a decimal literal: every character a digit (and at least one),
accumulated left to right. -/
def parseDigits (l : List Char) : Option Nat :=
  if l = [] then none
  else if l.all Char.isDigit then
    some (l.foldl (fun acc c => acc * 10 + (c.toNat - 48)) 0)
  else none

/-- Models strconv.Atoi: optional sign, decimal digits; any other shape, or a value
outside the signed 64-bit int range, is an error (none). -/
def Atoi (s : String) : Option Int :=
  let signed : Option Int :=
    match s.data with
    | '+' :: rest => (parseDigits rest).map (fun n => (n : Int))
    | '-' :: rest => (parseDigits rest).map (fun n => -(n : Int))
    | l => (parseDigits l).map (fun n => (n : Int))
  match signed with
  | none => none
  | some n => if n < -(2 ^ 63) ∨ 2 ^ 63 - 1 < n then none else some n

/-- Interpret an unbounded integer as the signed 64-bit value Go arithmetic produces
(two's-complement wraparound), for the `time.Duration(secs) * time.Second` product. -/
def wrap64 (n : Int) : Int := (n + 2 ^ 63) % 2 ^ 64 - 2 ^ 63

/-- RetryAfter: read the first `retry-after` header; a missing header, a value
strconv.Atoi rejects, or a negative value yields `(0, false)`; otherwise the seconds
count times `time.Second` (with int64 wraparound) and `true`. The Int is the Go
time.Duration in nanoseconds. -/
def Response.RetryAfter (r : Response) : Int × Bool :=
  let v := r.Header "retry-after"
  if v.2 = false then (0, false)
  else
    match Atoi v.1 with
    | none => (0, false)
    | some secs => if secs < 0 then (0, false) else (wrap64 (secs * 1000000000), true)

example : Response.RetryAfter ⟨"rate_limited", "", [⟨"retry-after", "5"⟩], []⟩
    = (5000000000, true) := by decide
example : Response.RetryAfter ⟨"rate_limited", "", [], []⟩ = (0, false) := by decide
example : Response.RetryAfter ⟨"rate_limited", "", [⟨"retry-after", "-1"⟩], []⟩
    = (0, false) := by decide
example : Response.RetryAfter ⟨"rate_limited", "", [⟨"retry-after", "abc"⟩], []⟩
    = (0, false) := by decide

/-- C7 counterexample: for the header value "10000000000" (ten billion seconds), Atoi
succeeds with a non-negative N, yet the returned duration is not N seconds: the Go
product `time.Duration(secs) * time.Second` overflows int64 and wraps negative. -/
theorem c7_counterexample :
    Atoi "10000000000" = some 10000000000
    ∧ Response.RetryAfter ⟨"rate_limited", "", [⟨"retry-after", "10000000000"⟩], []⟩
        = (-8446744073709551616, true)
    ∧ (-8446744073709551616 : Int) ≠ 10000000000 * 1000000000 := by
  exact ⟨by decide, by decide, by decide⟩

/-- C7 (amended): RetryAfter returns exactly N seconds (N·10⁹ nanoseconds) and true when
the first `retry-after` header parses as a non-negative integer N whose product with
10⁹ fits in the signed 64-bit duration type; a missing header, a non-integer value, or
a negative value yields `(0, false)` rather than an error. -/
theorem c7_retry_after (r : Response) :
    (∀ v n, r.Header "retry-after" = (v, true) → Atoi v = some n → 0 ≤ n →
      n * 1000000000 < 2 ^ 63 → r.RetryAfter = (n * 1000000000, true))
    ∧ ((r.Header "retry-after").2 = false → r.RetryAfter = (0, false))
    ∧ (∀ v, r.Header "retry-after" = (v, true) → Atoi v = none → r.RetryAfter = (0, false))
    ∧ (∀ v n, r.Header "retry-after" = (v, true) → Atoi v = some n → n < 0 →
      r.RetryAfter = (0, false)) := by
  refine ⟨?_, ?_, ?_, ?_⟩
  · intro v n hv ha hn hbound
    have hw : wrap64 (n * 1000000000) = n * 1000000000 := by
      unfold wrap64
      have h0 : (0 : Int) ≤ n * 1000000000 + 2 ^ 63 := by positivity
      have h1 : n * 1000000000 + 2 ^ 63 < 2 ^ 64 := by
        have : (2 : Int) ^ 64 = 2 ^ 63 + 2 ^ 63 := by norm_num
        omega
      rw [Int.emod_eq_of_lt h0 h1]
      omega
    simp [Response.RetryAfter, hv, ha, hw, not_lt.mpr hn]
  · intro hv
    simp [Response.RetryAfter, hv]
  · intro v hv ha
    simp [Response.RetryAfter, hv, ha]
  · intro v n hv ha hn
    simp [Response.RetryAfter, hv, ha, hn]

/-- Closed instance of the amended C7: value "5" yields five seconds available. -/
theorem c7_retry_after_witness :
    Response.RetryAfter ⟨"rate_limited", "", [⟨"retry-after", "5"⟩], []⟩
      = (5000000000, true) := by
  have h := (c7_retry_after ⟨"rate_limited", "", [⟨"retry-after", "5"⟩], []⟩).1
    "5" 5 (by decide) (by decide) (by decide) (by decide)
  simpa using h

/-! ### Connection pool (pool.go), sequential model -/

/-- connPool state: the map of canonical key → connection (connections as numeric
engine handles, keys as strings), the next fresh handle the engine would hand out on a
dial, and the handles on which Close has been called. -/
structure ConnPool where
  conns : List (String × Nat)
  nextId : Nat
  closed : List Nat
deriving DecidableEq

/-- Map lookup `p.conns[key]`. -/
def poolLookup (p : ConnPool) (key : String) : Option Nat :=
  match p.conns.find? (fun e => e.1 == key) with
  | some e => some e.2
  | none => none

/-- remove: if a connection is present under the key, delete it from the map and close
it; removing an absent key changes nothing. -/
def ConnPool.remove (p : ConnPool) (key : String) : ConnPool :=
  match poolLookup p key with
  | some c => ⟨p.conns.filter (fun e => !(e.1 == key)), p.nextId, c :: p.closed⟩
  | none => p

/-- get in the sequential (single-caller) case with a successful dial: return the stored
connection if one exists for the key, else dial (the engine hands out the fresh handle
nextId), store it under the key, and return it. -/
def ConnPool.get (p : ConnPool) (key : String) : Nat × ConnPool :=
  match poolLookup p key with
  | some c => (c, p)
  | none => (p.nextId, ⟨(key, p.nextId) :: p.conns, p.nextId + 1, p.closed⟩)

/-- Engine freshness: every handle stored in the map was handed out before nextId. -/
def ConnPool.Fresh (p : ConnPool) : Prop :=
  ∀ e ∈ p.conns, e.2 < p.nextId

theorem poolLookup_remove (p : ConnPool) (key : String) :
    poolLookup (p.remove key) key = none := by
  unfold ConnPool.remove
  cases hl : poolLookup p key with
  | none => exact hl
  | some c =>
    unfold poolLookup
    rw [List.find?_eq_none.mpr]
    intro e he
    have := (List.mem_filter.mp he).2
    simpa using this

/-- C8: after remove(key) nothing is stored under the key, the removed connection (if
one was present) is closed, remove of an absent key is a no-op, and the next get for
the key dials a distinct fresh handle rather than reusing the evicted one. -/
theorem c8_pool_remove (p : ConnPool) (key : String) :
    poolLookup (p.remove key) key = none
    ∧ (∀ c, poolLookup p key = some c → c ∈ (p.remove key).closed)
    ∧ (poolLookup p key = none → p.remove key = p)
    ∧ (∀ c, p.Fresh → poolLookup p key = some c → ((p.remove key).get key).1 ≠ c) := by
  refine ⟨poolLookup_remove p key, ?_, ?_, ?_⟩
  · intro c hc
    unfold ConnPool.remove
    rw [hc]
    exact List.mem_cons_self c p.closed
  · intro hn
    unfold ConnPool.remove
    rw [hn]
  · intro c hf hc
    have hlt : c < p.nextId := by
      unfold poolLookup at hc
      cases hfind : p.conns.find? (fun e => e.1 == key) with
      | none => rw [hfind] at hc; exact Option.noConfusion hc
      | some e =>
        rw [hfind] at hc
        have he : e ∈ p.conns := List.mem_of_find?_eq_some hfind
        have : e.2 = c := by simpa using hc
        exact this ▸ hf e he
    have hnext : ((p.remove key).get key).1 = (p.remove key).nextId := by
      unfold ConnPool.get
      rw [poolLookup_remove p key]
    have hid : (p.remove key).nextId = p.nextId := by
      unfold ConnPool.remove
      rw [hc]
    rw [hnext, hid]
    omega

/-- Closed instance of C8 on a one-entry pool. -/
theorem c8_pool_remove_witness :
    poolLookup (ConnPool.remove ⟨[("k", 0)], 1, []⟩ "k") "k" = none
    ∧ (0 : Nat) ∈ (ConnPool.remove ⟨[("k", 0)], 1, []⟩ "k").closed
    ∧ ((ConnPool.remove ⟨[("k", 0)], 1, []⟩ "k").get "k").1 ≠ 0 := by
  have h := c8_pool_remove ⟨[("k", 0)], 1, []⟩ "k"
  refine ⟨h.1, h.2.1 0 (by decide), h.2.2.2 0 ?_ (by decide)⟩
  intro e he
  simp at he
  subst he
  decide

/-! ### Client.Do (client source) -/

/-- The parsed URL shape Do consumes: the server address (whose encoding is the pool
key) and the request path. -/
structure NwepURL where
  Addr : String
  Path : String
deriving DecidableEq

/-- The raw engine exchange result. -/
structure NwepResponse where
  Status : String
  StatusDetails : String
  Headers : List Header
  Body : List Nat
deriving DecidableEq

/-- responseFromNWEP: the field-by-field mapping of a raw exchange result into a
Response; total, never fails. -/
def responseFromNWEP (nr : NwepResponse) : Response :=
  ⟨nr.Status, nr.StatusDetails, nr.Headers, nr.Body⟩

/-- Client.Do with the engine outcomes supplied as oracles: parseRes is what
nwep.URLParse returns on the normalized URL, getRes what pool.get returns (connection
handle, eviction key, and the pool state after get), and fetchRes what
FetchWithHeaders returns on the obtained connection. The result pairs the Response or
stage-tagged transport error with the pool state after the call. -/
def clientDo (url : String) (parseRes : Except GoError NwepURL)
    (getRes : Except GoError (Nat × String × ConnPool))
    (fetchRes : Nat → Except GoError NwepResponse) (pool : ConnPool) :
    Except GoError Response × ConnPool :=
  match parseRes with
  | .error e => (.error (.transportErr "parse" url e), pool)
  | .ok _ =>
    match getRes with
    | .error e => (.error (.transportErr "connect" url e), pool)
    | .ok (conn, key, pool2) =>
      match fetchRes conn with
      | .error e => (.error (.transportErr "fetch" url e), pool2.remove key)
      | .ok nr => (.ok (responseFromNWEP nr), pool2)

/-- C2: Do returns a parse-staged transport error (and no Response) when URL parsing
fails; a connect-staged transport error when the pool cannot supply a connection; on
exchange failure it removes that connection from the pool and returns a fetch-staged
transport error; and on exchange success it always returns a Response, whatever the
status. -/
theorem c2_do_stages (url : String) (parseRes : Except GoError NwepURL)
    (getRes : Except GoError (Nat × String × ConnPool))
    (fetchRes : Nat → Except GoError NwepResponse) (pool : ConnPool) :
    (∀ e, parseRes = .error e →
      clientDo url parseRes getRes fetchRes pool
        = (.error (.transportErr "parse" url e), pool))
    ∧ (∀ u e, parseRes = .ok u → getRes = .error e →
      clientDo url parseRes getRes fetchRes pool
        = (.error (.transportErr "connect" url e), pool))
    ∧ (∀ u conn key pool2 e, parseRes = .ok u → getRes = .ok (conn, key, pool2) →
      fetchRes conn = .error e →
      clientDo url parseRes getRes fetchRes pool
        = (.error (.transportErr "fetch" url e), pool2.remove key))
    ∧ (∀ u conn key pool2 nr, parseRes = .ok u → getRes = .ok (conn, key, pool2) →
      fetchRes conn = .ok nr →
      clientDo url parseRes getRes fetchRes pool
        = (.ok (responseFromNWEP nr), pool2)) := by
  refine ⟨?_, ?_, ?_, ?_⟩
  · intro e hp
    simp [clientDo, hp]
  · intro u e hp hg
    simp [clientDo, hp, hg]
  · intro u conn key pool2 e hp hg hfe
    simp [clientDo, hp, hg, hfe]
  · intro u conn key pool2 nr hp hg hfo
    simp [clientDo, hp, hg, hfo]

/-- Closed instance of C2: a fetch failure evicts the connection and is staged `fetch`;
a successful exchange with the error status not_found still yields a Response. -/
theorem c2_do_stages_witness :
    clientDo "web://[h]:6937/x" (.ok ⟨"h", "/x"⟩) (.ok (0, "k", ⟨[("k", 0)], 1, []⟩))
        (fun _ => .error (.leaf "io")) ⟨[("k", 0)], 1, []⟩
      = (.error (.transportErr "fetch" "web://[h]:6937/x" (.leaf "io")), ⟨[], 1, [0]⟩)
    ∧ clientDo "web://[h]:6937/x" (.ok ⟨"h", "/x"⟩) (.ok (0, "k", ⟨[("k", 0)], 1, []⟩))
        (fun _ => .ok ⟨"not_found", "no such path", [], []⟩) ⟨[("k", 0)], 1, []⟩
      = (.ok ⟨"not_found", "no such path", [], []⟩, ⟨[("k", 0)], 1, []⟩) := by
  have h1 := (c2_do_stages "web://[h]:6937/x" (.ok ⟨"h", "/x"⟩)
    (.ok (0, "k", ⟨[("k", 0)], 1, []⟩)) (fun _ => .error (.leaf "io"))
    ⟨[("k", 0)], 1, []⟩).2.2.1 ⟨"h", "/x"⟩ 0 "k" ⟨[("k", 0)], 1, []⟩ (.leaf "io") rfl rfl rfl
  have h2 := (c2_do_stages "web://[h]:6937/x" (.ok ⟨"h", "/x"⟩)
    (.ok (0, "k", ⟨[("k", 0)], 1, []⟩)) (fun _ => .ok ⟨"not_found", "no such path", [], []⟩)
    ⟨[("k", 0)], 1, []⟩).2.2.2 ⟨"h", "/x"⟩ 0 "k" ⟨[("k", 0)], 1, []⟩
    ⟨"not_found", "no such path", [], []⟩ rfl rfl rfl
  refine ⟨h1.trans rfl, h2.trans rfl⟩

/-! ### Client construction (NewClient and options) -/

/-- clientConfig: the option-accumulation record NewClient folds the options over.
Keypairs, seeds, settings and callbacks are abstract numeric handles. -/
structure clientConfig where
  keypair : Option Nat
  seed : Option Nat
  timeout : Int
  settings : Option Nat
  onNotify : Option Nat
  poolSize : Int
deriving DecidableEq

/-- The Go zero value `&clientConfig\x7b\x7d`. -/
def emptyClientConfig : clientConfig := ⟨none, none, 0, none, none, 0⟩

/-- ClientOption: a mutation of the config record. -/
def ClientOption : Type := clientConfig → clientConfig

/-- WithKeypair sets the explicit caller-owned identity; it does not touch the seed. -/
def WithKeypair (kp : Nat) : ClientOption :=
  fun c => ⟨some kp, c.seed, c.timeout, c.settings, c.onNotify, c.poolSize⟩

/-- WithSeed records a 32-byte seed for deterministic derivation; it does not touch the
keypair field. -/
def WithSeed (seed : Nat) : ClientOption :=
  fun c => ⟨c.keypair, some seed, c.timeout, c.settings, c.onNotify, c.poolSize⟩

/-- WithTimeout sets the default timeout. -/
def WithTimeout (d : Int) : ClientOption :=
  fun c => ⟨c.keypair, c.seed, d, c.settings, c.onNotify, c.poolSize⟩

/-- WithSettings records protocol settings for new connections. -/
def WithSettings (s : Nat) : ClientOption :=
  fun c => ⟨c.keypair, c.seed, c.timeout, some s, c.onNotify, c.poolSize⟩

/-- WithOnNotify registers the notification callback. -/
def WithOnNotify (fn : Nat) : ClientOption :=
  fun c => ⟨c.keypair, c.seed, c.timeout, c.settings, some fn, c.poolSize⟩

/-- WithPoolSize is reserved for future use (a no-op on behaviour). -/
def WithPoolSize (n : Int) : ClientOption :=
  fun c => ⟨c.keypair, c.seed, c.timeout, c.settings, c.onNotify, n⟩

/-- The identity-relevant Client state NewClient produces. -/
structure Client where
  keypair : Nat
  ownsKey : Bool
  timeout : Int
  settings : Option Nat
deriving DecidableEq

/-- NewClient: fold the options over the zero config in order, then select the
identity: an explicit keypair is checked first and wins whenever present; otherwise a
recorded seed is derived (kpFromSeed oracle, owned); otherwise a fresh keypair is
generated (genKp oracle, owned). Construction fails if derivation/generation fails. -/
def NewClient (kpFromSeed : Nat → Except GoError Nat) (genKp : Except GoError Nat)
    (opts : List ClientOption) : Except GoError Client :=
  let cfg := opts.foldl (fun c o => o c) emptyClientConfig
  match cfg.keypair with
  | some kp => .ok ⟨kp, false, cfg.timeout, cfg.settings⟩
  | none =>
    match cfg.seed with
    | some s =>
      match kpFromSeed s with
      | .error e => .error e
      | .ok kp => .ok ⟨kp, true, cfg.timeout, cfg.settings⟩
    | none =>
      match genKp with
      | .error e => .error e
      | .ok kp => .ok ⟨kp, true, cfg.timeout, cfg.settings⟩

/-- C1 evaluated at the failing input: with WithKeypair applied first and WithSeed
second, NewClient still selects the explicit keypair 7 (caller-owned), not the
seed-derived keypair 99, because the identity switch tests the keypair field before the
seed field; the selection is the same in either order, so the later identity option
does not win. -/
theorem c1_identity_order :
    NewClient (fun _ => .ok 99) (.ok 50) [WithKeypair 7, WithSeed 3] = .ok ⟨7, false, 0, none⟩
    ∧ NewClient (fun _ => .ok 99) (.ok 50) [WithSeed 3, WithKeypair 7] = .ok ⟨7, false, 0, none⟩
    ∧ (7 : Nat) ≠ 99 := by
  exact ⟨rfl, rfl, by decide⟩

/-! ### Concurrent get: the double-checked locking race (pool.go get) -/

/-- Program counter of one goroutine running connPool.get for one fixed
never-before-seen address: about to take the first locked map check, dial done and
about to take the final locked re-check, or returned. -/
inductive GetPC where
  | check
  | recheck
  | finished
deriving DecidableEq

/-- One goroutine's local view: program counter, whether it completed a dial of its own
connection, and the handle its get call returned. -/
structure GetThread where
  pc : GetPC
  dialed : Bool
  ret : Option Nat
deriving DecidableEq

/-- The shared race state for the contested key: the map entries stored under the key
(a store is a cons, so a skipped re-check would surface as a duplicate entry), the
closed handles, and the two goroutines. Goroutine one dials handle 1, goroutine two
handle 2; dialing itself touches no shared state, so each get is two atomic locked
sections. -/
structure RaceState where
  stored : List Nat
  closed : List Nat
  t1 : GetThread
  t2 : GetThread
deriving DecidableEq

/-- One atomic locked section of a goroutine (i = true is goroutine one): the first map
check returns the stored connection when present and otherwise releases the lock and
dials; the final re-check stores the own dialed connection when the key is still
absent, and otherwise closes the own connection and returns the stored winner. -/
def raceStep (s : RaceState) (i : Bool) : RaceState :=
  if i then
    match s.t1.pc, s.stored with
    | .finished, _ => s
    | .check, [] => ⟨s.stored, s.closed, ⟨.recheck, true, s.t1.ret⟩, s.t2⟩
    | .check, c :: _ => ⟨s.stored, s.closed, ⟨.finished, s.t1.dialed, some c⟩, s.t2⟩
    | .recheck, [] => ⟨1 :: s.stored, s.closed, ⟨.finished, s.t1.dialed, some 1⟩, s.t2⟩
    | .recheck, c :: _ => ⟨s.stored, 1 :: s.closed, ⟨.finished, s.t1.dialed, some c⟩, s.t2⟩
  else
    match s.t2.pc, s.stored with
    | .finished, _ => s
    | .check, [] => ⟨s.stored, s.closed, s.t1, ⟨.recheck, true, s.t2.ret⟩⟩
    | .check, c :: _ => ⟨s.stored, s.closed, s.t1, ⟨.finished, s.t2.dialed, some c⟩⟩
    | .recheck, [] => ⟨2 :: s.stored, s.closed, s.t1, ⟨.finished, s.t2.dialed, some 2⟩⟩
    | .recheck, c :: _ => ⟨s.stored, 2 :: s.closed, s.t1, ⟨.finished, s.t2.dialed, some c⟩⟩

/-- Both goroutines about to run get on an empty pool for a never-yet-seen address. -/
def raceInit : RaceState := ⟨[], [], ⟨.check, false, none⟩, ⟨.check, false, none⟩⟩

/-- Run a schedule (the scheduler's choice of goroutine for each atomic section). -/
def raceRun (sched : List Bool) : RaceState := sched.foldl raceStep raceInit

/-- The reachable states of the race: exhausting raceStep from raceInit yields these
twelve states; closure under raceStep is established below by decision. -/
def raceReach : List RaceState :=
  [⟨[], [], ⟨.check, false, none⟩, ⟨.check, false, none⟩⟩,
   ⟨[], [], ⟨.recheck, true, none⟩, ⟨.check, false, none⟩⟩,
   ⟨[], [], ⟨.check, false, none⟩, ⟨.recheck, true, none⟩⟩,
   ⟨[1], [], ⟨.finished, true, some 1⟩, ⟨.check, false, none⟩⟩,
   ⟨[], [], ⟨.recheck, true, none⟩, ⟨.recheck, true, none⟩⟩,
   ⟨[2], [], ⟨.check, false, none⟩, ⟨.finished, true, some 2⟩⟩,
   ⟨[1], [], ⟨.finished, true, some 1⟩, ⟨.finished, false, some 1⟩⟩,
   ⟨[1], [], ⟨.finished, true, some 1⟩, ⟨.recheck, true, none⟩⟩,
   ⟨[2], [], ⟨.recheck, true, none⟩, ⟨.finished, true, some 2⟩⟩,
   ⟨[2], [], ⟨.finished, false, some 2⟩, ⟨.finished, true, some 2⟩⟩,
   ⟨[1], [2], ⟨.finished, true, some 1⟩, ⟨.finished, true, some 1⟩⟩,
   ⟨[2], [1], ⟨.finished, true, some 2⟩, ⟨.finished, true, some 2⟩⟩]

theorem raceReach_init : raceInit ∈ raceReach := by decide

theorem raceReach_step : ∀ s ∈ raceReach, ∀ i : Bool, raceStep s i ∈ raceReach := by decide

theorem raceRun_mem (sched : List Bool) : raceRun sched ∈ raceReach := by
  suffices h : ∀ (l : List Bool) (s : RaceState), s ∈ raceReach → l.foldl raceStep s ∈ raceReach by
    exact h sched raceInit raceReach_init
  intro l
  induction l with
  | nil => exact fun s hs => hs
  | cons i t ih => exact fun s hs => ih _ (raceReach_step s hs i)

theorem raceReach_safe : ∀ s ∈ raceReach,
    (s.stored = [] ∨ s.stored = [1] ∨ s.stored = [2])
    ∧ (s.t1.pc = GetPC.finished → s.t2.pc = GetPC.finished →
        s.stored.length = 1 ∧ s.t1.ret = s.stored.head? ∧ s.t2.ret = s.stored.head?)
    ∧ (s.t1.pc = GetPC.finished → s.t1.dialed = true → s.stored ≠ [1] → s.closed.contains 1 = true)
    ∧ (s.t2.pc = GetPC.finished → s.t2.dialed = true → s.stored ≠ [2] → s.closed.contains 2 = true)
    ∧ (s.stored = [1] → s.closed.contains 1 = false)
    ∧ (s.stored = [2] → s.closed.contains 2 = false) := by decide

/-- C3: under every interleaving of two goroutines racing connPool.get for one
never-yet-seen canonical address, the pool stores at most one connection for the key at
every moment; when both calls have returned, exactly one connection is stored and both
calls return that same stored connection (first writer wins); a goroutine that dialed
but did not get its connection stored has closed that connection; and the stored
winner's connection is never the closed one. -/
theorem c3_pool_race (sched : List Bool) :
    ((raceRun sched).stored = [] ∨ (raceRun sched).stored = [1] ∨ (raceRun sched).stored = [2])
    ∧ ((raceRun sched).t1.pc = GetPC.finished → (raceRun sched).t2.pc = GetPC.finished →
        ∃ c, (raceRun sched).stored = [c] ∧ (raceRun sched).t1.ret = some c
          ∧ (raceRun sched).t2.ret = some c)
    ∧ ((raceRun sched).t1.pc = GetPC.finished → (raceRun sched).t1.dialed = true →
        (raceRun sched).stored ≠ [1] → 1 ∈ (raceRun sched).closed)
    ∧ ((raceRun sched).t2.pc = GetPC.finished → (raceRun sched).t2.dialed = true →
        (raceRun sched).stored ≠ [2] → 2 ∈ (raceRun sched).closed)
    ∧ ((raceRun sched).stored = [1] → 1 ∉ (raceRun sched).closed)
    ∧ ((raceRun sched).stored = [2] → 2 ∉ (raceRun sched).closed) := by
  have hs := raceReach_safe (raceRun sched) (raceRun_mem sched)
  refine ⟨hs.1, ?_, fun a b c => by simpa using hs.2.2.1 a b c,
    fun a b c => by simpa using hs.2.2.2.1 a b c,
    fun a => by simpa using hs.2.2.2.2.1 a,
    fun a => by simpa using hs.2.2.2.2.2 a⟩
  intro h1 h2
  obtain ⟨hlen, hr1, hr2⟩ := hs.2.1 h1 h2
  cases hst : (raceRun sched).stored with
  | nil => rw [hst] at hlen; exact absurd hlen (by decide)
  | cons a rest =>
    cases rest with
    | nil =>
      rw [hst] at hr1 hr2
      exact ⟨a, rfl, by simpa using hr1, by simpa using hr2⟩
    | cons b r2 =>
      rw [hst] at hlen
      simp at hlen

/-- Closed instance of C3: the full race (both goroutines pass the first check before
either stores), scheduled one-two-one-two: goroutine one's connection is stored, both
return it, and goroutine two has closed its own dialed connection. -/
theorem c3_pool_race_witness :
    (∃ c, (raceRun [true, false, true, false]).stored = [c]
      ∧ (raceRun [true, false, true, false]).t1.ret = some c
      ∧ (raceRun [true, false, true, false]).t2.ret = some c)
    ∧ 2 ∈ (raceRun [true, false, true, false]).closed := by
  refine ⟨(c3_pool_race [true, false, true, false]).2.1 (by decide) (by decide), ?_⟩
  exact (c3_pool_race [true, false, true, false]).2.2.2.1 (by decide) (by decide) (by decide)

end Nwfetch
